import Mathlib

/-!
# Verification of `cloudflare-bp-go` (`round_tripper.go`)

Shallow embedding of the package `cloudflarebp` (file `round_tripper.go`)
together with the parts of the Go standard library that its behaviour
depends on: `textproto.CanonicalMIMEHeaderKey` (used by `http.Header.Set`),
the `http.Header` map, `http.Transport.TLSClientConfig` and
`tls.Config.CurvePreferences`.

Modelling conventions:
* Go strings are Lean `String`s; the header-name bytes relevant here are
  ASCII, where Go byte-wise case mapping coincides with `Char.toUpper` /
  `Char.toLower`.
* `http.Header` (`map[string][]string`) is modelled as the total function
  `String → Option (List String)`; `none` means the key is absent.
* Go pointers are `Option`; a `nil` pointer is `none`.
* A Go panic is modelled by an `Option`-valued result being `none`.
* Struct fields of `tls.Config`, `http.Transport` and `http.Request` that
  the source never reads or writes individually are collapsed into a
  single `rest : Nat` field; the Go zero value of that abstract remainder
  is `0` (a fresh composite literal zero-initialises these fields).
-/

namespace Cloudflarebp

/-- Go `textproto` valid header-field byte (RFC 7230 token characters):
letters, digits, and the bytes `! # $ % & ' * + - . ^ _ | ~` and backquote
(codes 33, 35, 36, 37, 38, 39, 42, 43, 45, 46, 94, 95, 96, 124, 126). -/
def validHeaderFieldChar (c : Char) : Bool :=
  let n := c.toNat
  (97 ≤ n && n ≤ 122) || (65 ≤ n && n ≤ 90) || (48 ≤ n && n ≤ 57) ||
  (n == 33 || n == 35 || n == 36 || n == 37 || n == 38 || n == 39 ||
   n == 42 || n == 43 || n == 45 || n == 46 || n == 94 || n == 95 ||
   n == 96 || n == 124 || n == 126)

/-- The canonicalisation loop of Go `textproto.canonicalMIMEHeaderKey`:
a byte is upper-cased at the start and after each hyphen, lower-cased
elsewhere; the flag tracks whether the next byte starts a word. -/
def canonAux : List Char → Bool → List Char
  | [], _ => []
  | c :: cs, upper =>
    let c2 := if upper then c.toUpper else c.toLower
    c2 :: canonAux cs (c2 == '-')

/-- Go `textproto.CanonicalMIMEHeaderKey`: if every byte is a valid
header-field byte the key is case-canonicalised, otherwise it is returned
unchanged. -/
def canonicalMIMEHeaderKey (s : String) : String :=
  if s.data.all validHeaderFieldChar then String.mk (canonAux s.data true) else s

/-- Go `http.Header` (`map[string][]string`): a finite map modelled as a
total function; `none` marks an absent key. -/
abbrev Header := String → Option (List String)

/-- Go `http.Header.Set(key, value)`: stores `[]string{value}` under the
canonical MIME form of `key` (via `textproto.MIMEHeader.Set`). -/
def Header.set (h : Header) (key value : String) : Header :=
  fun k => if k = canonicalMIMEHeaderKey key then some [value] else h k

/-- `Options` from `round_tripper.go` (lines 18-21).  The Go field
`Headers map[string]string` is modelled as an association list holding the
map entries in iteration order (a Go map never repeats a key, but no proof
below needs that restriction). -/
structure Options where
  AddMissingHeaders : Bool
  Headers : List (String × String)
deriving DecidableEq, Repr

/-- Go `crypto/tls` curve identifier (`tls.CurveID`, a `uint16`). -/
abbrev CurveID := Nat

/-- `tls.CurveP256 = 23`. -/
def CurveP256 : CurveID := 23

/-- `tls.CurveP384 = 24`. -/
def CurveP384 : CurveID := 24

/-- `tls.CurveP521 = 25`. -/
def CurveP521 : CurveID := 25

/-- `tls.X25519 = 29`. -/
def X25519 : CurveID := 29

/-- Go `tls.Config`.  `CurvePreferences` is the field the source writes;
`rest` abstracts every other field of the struct, with `0` standing for
their Go zero values. -/
structure TLSConfig where
  CurvePreferences : List CurveID
  rest : Nat
deriving DecidableEq, Repr

/-- `getCloudFlareTLSConfiguration` (lines 65-69): a fresh `tls.Config`
composite literal whose only explicit field is `CurvePreferences`; all
other fields are zero-initialised. -/
def getCloudFlareTLSConfiguration : TLSConfig :=
  { CurvePreferences := [CurveP256, CurveP384, CurveP521, X25519], rest := 0 }

/-- Go `http.Transport`.  `TLSClientConfig` is a `*tls.Config` (`none` =
nil); `rest` abstracts the many remaining fields. -/
structure Transport where
  TLSClientConfig : Option TLSConfig
  rest : Nat
deriving DecidableEq, Repr

/-- Go `http.Request`, opaque to the source except for its `Header`
field; `rest` abstracts method, URL, body, etc. -/
structure Request where
  header : Header
  rest : Nat

/-- A non-nil `http.RoundTripper` interface value: either a concrete
`*http.Transport` (whose pointer may itself be nil) or any other
implementation, given by its `RoundTrip` behaviour returning a response
(`ρ`) or an error (`ε`). -/
inductive RoundTripperI (ρ ε : Type) where
  | transport (t : Option Transport)
  | custom (f : Request → Except ε ρ)

/-- `cloudFlareRoundTripper` (lines 12-15): the decorator struct. -/
structure cloudFlareRoundTripper (ρ ε : Type) where
  inner : Option (RoundTripperI ρ ε)
  options : Options

/-- `GetDefaultOptions` (lines 72-81). -/
def GetDefaultOptions : Options :=
  { AddMissingHeaders := true,
    Headers :=
      [("Accept",
        "text/html,application/xhtml+xml,application/xml;q=0.9,image/webp,image/apng,*/*;q=0.8"),
       ("Accept-Language", "en-US,en;q=0.5"),
       ("User-Agent",
        "Mozilla/5.0 (Windows NT 10.0; Win64; x64) AppleWebKit/537.36 (KHTML, like Gecko) Chrome/127.0.0.0 Safari/537.36 Edg/127.0.0.0")] }

/-- `AddCloudFlareByPass` (lines 25-41).  The result pairs the (possibly
TLS-updated) inner round tripper with the constructed decorator, making
the in-place mutation of the caller-owned transport explicit; the outer
`Option` is `none` exactly when the Go code panics:
* `inner` holds a typed-nil `*http.Transport` and line 27 dereferences it;
* `options` is a non-nil empty slice and line 35 indexes `options[0]`. -/
def AddCloudFlareByPass {ρ ε : Type} (inner : Option (RoundTripperI ρ ε))
    (options : Option (List Options)) :
    Option (Option (RoundTripperI ρ ε) × cloudFlareRoundTripper ρ ε) :=
  match inner with
  | some (.transport none) => none
  | some (.transport (some t)) =>
    let inner2 : Option (RoundTripperI ρ ε) :=
      some (.transport (some { t with TLSClientConfig := some getCloudFlareTLSConfiguration }))
    match options with
    | some [] => none
    | some (o :: _) => some (inner2, { inner := inner2, options := o })
    | none => some (inner2, { inner := inner2, options := GetDefaultOptions })
  | _ =>
    match options with
    | some [] => none
    | some (o :: _) => some (inner, { inner := inner, options := o })
    | none => some (inner, { inner := inner, options := GetDefaultOptions })

/-- The header-merge loop of `RoundTrip` (lines 46-50): for each
configured pair, if the raw map key `header` is absent from the request
headers, `Set` it. -/
def setMissingHeaders (hs : List (String × String)) (h : Header) : Header :=
  hs.foldl (fun acc p => if (acc p.1).isSome then acc else Header.set acc p.1 p.2) h

/-- Lines 45-51 of `RoundTrip`: run the merge loop only when
`AddMissingHeaders` is set. -/
def roundTripHeaders (o : Options) (h : Header) : Header :=
  if o.AddMissingHeaders then setMissingHeaders o.Headers h else h

/-- The fresh fallback transport of lines 55-57:
`&http.Transport{TLSClientConfig: getCloudFlareTLSConfiguration()}`. -/
def fallbackTransport : Transport :=
  { TLSClientConfig := some getCloudFlareTLSConfiguration, rest := 0 }

/-- Dispatch a request to a non-nil `http.RoundTripper` interface value.
The behaviour of `(*http.Transport).RoundTrip` lives in `net/http`, so it
is a parameter `tb` of the model. -/
def applyRoundTripper {ρ ε : Type} (tb : Option Transport → Request → Except ε ρ) :
    RoundTripperI ρ ε → Request → Except ε ρ
  | .transport t, r => tb t r
  | .custom f, r => f r

/-- `RoundTrip` (lines 44-61): merge the configured headers into the
request, then delegate to the inner round tripper, or to a freshly
constructed `fallbackTransport` when `inner` is nil. -/
def RoundTrip {ρ ε : Type} (tb : Option Transport → Request → Except ε ρ)
    (ug : cloudFlareRoundTripper ρ ε) (r : Request) : Except ε ρ :=
  let r2 : Request := { r with header := roundTripHeaders ug.options r.header }
  match ug.inner with
  | none => tb (some fallbackTransport) r2
  | some i => applyRoundTripper tb i r2

/-- `Except.isOk`: did the round trip produce a response (no error)? -/
def resultOk {ρ ε : Type} : Except ε ρ → Bool
  | .ok _ => true
  | .error _ => false

/-- Proof device: the effect of one merge-loop step on the single header
key `k`.  Pairs whose canonical name is not `k` leave `k` alone; the
presence test for a pair `p` reads the evolving value at `k` itself when
the raw name is `k`, and the (never-changing) initial value at the
non-canonical raw name otherwise. -/
def mergeStepAt (h : Header) (k : String) (acc : Option (List String))
    (p : String × String) : Option (List String) :=
  if canonicalMIMEHeaderKey p.1 = k then
    (if (if p.1 = k then acc.isNone else (h p.1).isNone) then some [p.2] else acc)
  else acc


/-- The empty header map. -/
def emptyHeader : Header := fun _ => none

/-- A header map with exactly one entry. -/
def singleHeader (key : String) (v : List String) : Header :=
  fun k => if k = key then some v else none


/-! ## Lemmas -/

theorem toNat_ofNat_of_valid {n : Nat} (h : n.isValidChar) : (Char.ofNat n).toNat = n := by
  simp [Char.ofNat, dif_pos h, Char.ofNatAux, Char.toNat, UInt32.toNat, BitVec.ofNatLt]

theorem toUpper_toNat_of_lower {c : Char} (h : 97 ≤ c.toNat ∧ c.toNat ≤ 122) :
    c.toUpper.toNat = c.toNat - 32 := by
  have hv : (c.toNat - 32).isValidChar := Or.inl (by omega)
  simp only [Char.toUpper]
  rw [if_pos (by omega), toNat_ofNat_of_valid hv]

theorem toLower_toNat_of_upper {c : Char} (h : 65 ≤ c.toNat ∧ c.toNat ≤ 90) :
    c.toLower.toNat = c.toNat + 32 := by
  have hv : (c.toNat + 32).isValidChar := Or.inl (by omega)
  simp only [Char.toLower]
  rw [if_pos (by omega), toNat_ofNat_of_valid hv]

theorem toUpper_eq_self {c : Char} (h : ¬(97 ≤ c.toNat ∧ c.toNat ≤ 122)) : c.toUpper = c := by
  simp only [Char.toUpper]
  rw [if_neg (by omega)]

theorem toLower_eq_self {c : Char} (h : ¬(65 ≤ c.toNat ∧ c.toNat ≤ 90)) : c.toLower = c := by
  simp only [Char.toLower]
  rw [if_neg (by omega)]

theorem toUpper_idem (c : Char) : c.toUpper.toUpper = c.toUpper := by
  by_cases h : 97 ≤ c.toNat ∧ c.toNat ≤ 122
  · have := toUpper_toNat_of_lower h
    exact toUpper_eq_self (by omega)
  · rw [toUpper_eq_self h, toUpper_eq_self h]

theorem toLower_idem (c : Char) : c.toLower.toLower = c.toLower := by
  by_cases h : 65 ≤ c.toNat ∧ c.toNat ≤ 90
  · have := toLower_toNat_of_upper h
    exact toLower_eq_self (by omega)
  · rw [toLower_eq_self h, toLower_eq_self h]

theorem valid_iff_toNat {c : Char} : validHeaderFieldChar c = true ↔
    (97 ≤ c.toNat ∧ c.toNat ≤ 122) ∨ (65 ≤ c.toNat ∧ c.toNat ≤ 90) ∨
    (48 ≤ c.toNat ∧ c.toNat ≤ 57) ∨
    c.toNat ∈ ([33, 35, 36, 37, 38, 39, 42, 43, 45, 46, 94, 95, 96, 124, 126] : List Nat) := by
  simp [validHeaderFieldChar, List.mem_cons]
  omega

theorem valid_toUpper (c : Char) : validHeaderFieldChar c.toUpper = validHeaderFieldChar c := by
  by_cases h : 97 ≤ c.toNat ∧ c.toNat ≤ 122
  · have h2 := toUpper_toNat_of_lower h
    have : validHeaderFieldChar c.toUpper = true := valid_iff_toNat.2 (by omega)
    have : validHeaderFieldChar c = true := valid_iff_toNat.2 (by omega)
    simp_all
  · rw [toUpper_eq_self h]

theorem valid_toLower (c : Char) : validHeaderFieldChar c.toLower = validHeaderFieldChar c := by
  by_cases h : 65 ≤ c.toNat ∧ c.toNat ≤ 90
  · have h2 := toLower_toNat_of_upper h
    have : validHeaderFieldChar c.toLower = true := valid_iff_toNat.2 (by omega)
    have : validHeaderFieldChar c = true := valid_iff_toNat.2 (by omega)
    simp_all
  · rw [toLower_eq_self h]


theorem canonAux_idem (l : List Char) (u : Bool) : canonAux (canonAux l u) u = canonAux l u := by
  induction l generalizing u with
  | nil => rfl
  | cons c cs ih =>
    cases u with
    | true => simp [canonAux, toUpper_idem, ih]
    | false => simp [canonAux, toLower_idem, ih]

theorem canonAux_all_valid (l : List Char) (u : Bool) :
    (canonAux l u).all validHeaderFieldChar = l.all validHeaderFieldChar := by
  induction l generalizing u with
  | nil => rfl
  | cons c cs ih =>
    cases u with
    | true => simp [canonAux, valid_toUpper, ih]
    | false => simp [canonAux, valid_toLower, ih]

theorem canon_idem (s : String) :
    canonicalMIMEHeaderKey (canonicalMIMEHeaderKey s) = canonicalMIMEHeaderKey s := by
  by_cases hv : s.data.all validHeaderFieldChar
  · unfold canonicalMIMEHeaderKey
    rw [if_pos hv]
    have hd : (String.mk (canonAux s.data true)).data = canonAux s.data true := rfl
    rw [if_pos (by rw [hd, canonAux_all_valid]; exact hv), hd]
    exact congrArg String.mk (canonAux_idem _ _)
  · unfold canonicalMIMEHeaderKey
    rw [if_neg hv, if_neg hv]


theorem Header.set_apply (h : Header) (key value k : String) :
    Header.set h key value k =
      if k = canonicalMIMEHeaderKey key then some [value] else h k := rfl

theorem setMissingHeaders_cons (a : String × String) (t : List (String × String)) (h : Header) :
    setMissingHeaders (a :: t) h =
      setMissingHeaders t (if (h a.1).isSome then h else Header.set h a.1 a.2) := rfl

theorem setMissingHeaders_grow {hs : List (String × String)} {h : Header} {k : String}
    (hk : (h k).isSome) : (setMissingHeaders hs h k).isSome := by
  induction hs generalizing h with
  | nil => exact hk
  | cons a t ih =>
    rw [setMissingHeaders_cons]
    apply ih
    split
    · exact hk
    · rw [Header.set_apply]
      split
      · rfl
      · exact hk

theorem setMissingHeaders_nonCanon {k : String} (hk : canonicalMIMEHeaderKey k ≠ k)
    (hs : List (String × String)) (h : Header) : setMissingHeaders hs h k = h k := by
  induction hs generalizing h with
  | nil => rfl
  | cons a t ih =>
    rw [setMissingHeaders_cons, ih]
    split
    · rfl
    · rw [Header.set_apply]
      rw [if_neg (fun he => hk (by rw [he, canon_idem]))]

theorem setMissingHeaders_preserves {hs : List (String × String)} {h : Header} {k : String}
    (hcanon : ∀ p ∈ hs, canonicalMIMEHeaderKey p.1 = p.1) (hk : (h k).isSome) :
    setMissingHeaders hs h k = h k := by
  induction hs generalizing h with
  | nil => rfl
  | cons a t ih =>
    rw [setMissingHeaders_cons]
    by_cases ha : (h a.1).isSome
    · rw [if_pos ha]
      exact ih (fun p hp => hcanon p (List.mem_cons_of_mem a hp)) hk
    · rw [if_neg ha]
      have hne : k ≠ canonicalMIMEHeaderKey a.1 := by
        rw [hcanon a (List.mem_cons_self a t)]
        rintro rfl
        exact ha hk
      have hset : Header.set h a.1 a.2 k = h k := by rw [Header.set_apply, if_neg hne]
      rw [ih (fun p hp => hcanon p (List.mem_cons_of_mem a hp)) (by rw [hset]; exact hk), hset]

theorem setMissingHeaders_mem {hs : List (String × String)} {h : Header} {p : String × String}
    (hmem : p ∈ hs) :
    (setMissingHeaders hs h (canonicalMIMEHeaderKey p.1)).isSome ∨ (h p.1).isSome := by
  induction hs generalizing h with
  | nil => cases hmem
  | cons a t ih =>
    rw [setMissingHeaders_cons]
    rcases List.mem_cons.1 hmem with heq | hmem2
    · subst heq
      by_cases ha : (h p.1).isSome
      · exact Or.inr ha
      · left
        rw [if_neg ha]
        apply setMissingHeaders_grow
        rw [Header.set_apply, if_pos rfl]
        rfl
    · rcases ih (h := if (h a.1).isSome then h else Header.set h a.1 a.2) hmem2 with hl | hr
      · exact Or.inl hl
      · by_cases hn : (h p.1).isSome
        · exact Or.inr hn
        · left
          revert hr
          split
          · intro hr
            exact absurd hr hn
          · intro hr
            rw [Header.set_apply] at hr
            by_cases he : p.1 = canonicalMIMEHeaderKey a.1
            · have hcn : canonicalMIMEHeaderKey p.1 = p.1 := by rw [he, canon_idem]
              rw [hcn]
              exact setMissingHeaders_grow hr
            · rw [if_neg he] at hr
              exact absurd hr hn


theorem mergeStepAt_isSome {h : Header} {k : String} {acc : Option (List String)}
    {p : String × String} (hacc : acc.isSome) : (mergeStepAt h k acc p).isSome := by
  have hor : mergeStepAt h k acc p = some [p.2] ∨ mergeStepAt h k acc p = acc := by
    unfold mergeStepAt
    repeat' split
    all_goals first
      | exact Or.inl rfl
      | exact Or.inr rfl
  rcases hor with he | he <;> rw [he]
  · rfl
  · exact hacc

theorem foldl_mergeStepAt_isSome {h : Header} {k : String} {hs : List (String × String)}
    {acc : Option (List String)} (hacc : acc.isSome) :
    (hs.foldl (mergeStepAt h k) acc).isSome := by
  induction hs generalizing acc with
  | nil => exact hacc
  | cons a t ih => exact ih (mergeStepAt_isSome hacc)

theorem setMissingHeaders_at_canon {k : String} (hk : canonicalMIMEHeaderKey k = k)
    (hs : List (String × String)) (h : Header) :
    setMissingHeaders hs h k = hs.foldl (mergeStepAt h k) (h k) := by
  induction hs generalizing h with
  | nil => rfl
  | cons a t ih =>
    rw [setMissingHeaders_cons, List.foldl_cons, ih]
    have hinit : (if (h a.1).isSome then h else Header.set h a.1 a.2) k
        = mergeStepAt h k (h k) a := by
      unfold mergeStepAt Header.set
      split_ifs <;>
        simp_all [Option.isNone_iff_eq_none, Option.not_isSome_iff_eq_none]
      intro he
      exact absurd he.symm (by assumption)
    rw [hinit]
    apply List.foldl_ext
    intro acc p hp
    by_cases h1 : canonicalMIMEHeaderKey p.1 = k
    · by_cases h2 : p.1 = k
      · simp only [mergeStepAt, if_pos h1, if_pos h2]
      · have hpnc : canonicalMIMEHeaderKey p.1 ≠ p.1 := fun he => h2 (by rw [← he, h1])
        have hstep : (if (h a.1).isSome then h else Header.set h a.1 a.2) p.1 = h p.1 := by
          split
          · rfl
          · rw [Header.set_apply, if_neg (fun he => hpnc (by rw [he, canon_idem]))]
        simp only [mergeStepAt, if_pos h1, if_neg h2, hstep]
    · simp only [mergeStepAt, if_neg h1]


theorem foldl_mergeStepAt_idem (h : Header) (k : String) (hs : List (String × String)) :
    ∀ acc, hs.foldl (mergeStepAt h k) (hs.foldl (mergeStepAt h k) acc)
      = hs.foldl (mergeStepAt h k) acc := by
  induction hs with
  | nil => intro acc; rfl
  | cons a t ih =>
    intro acc
    simp only [List.foldl_cons]
    by_cases h1 : canonicalMIMEHeaderKey a.1 = k
    · by_cases h2 : a.1 = k
      · cases acc with
        | none =>
          have hFa : mergeStepAt h k none a = some [a.2] := by
            simp [mergeStepAt, if_pos h1, if_pos h2]
          rw [hFa]
          have hr : (t.foldl (mergeStepAt h k) (some [a.2])).isSome :=
            foldl_mergeStepAt_isSome rfl
          have hFr : mergeStepAt h k (t.foldl (mergeStepAt h k) (some [a.2])) a
              = t.foldl (mergeStepAt h k) (some [a.2]) := by
            simp only [mergeStepAt, if_pos h1, if_pos h2,
              Option.isNone_iff_eq_none]
            rw [if_neg (by rw [Option.isSome_iff_ne_none] at hr; simpa using hr)]
          rw [hFr]
          exact ih (some [a.2])
        | some x =>
          have hFa : mergeStepAt h k (some x) a = some x := by
            simp [mergeStepAt, if_pos h1, if_pos h2]
          rw [hFa]
          have hr : (t.foldl (mergeStepAt h k) (some x)).isSome :=
            foldl_mergeStepAt_isSome rfl
          have hFr : mergeStepAt h k (t.foldl (mergeStepAt h k) (some x)) a
              = t.foldl (mergeStepAt h k) (some x) := by
            simp only [mergeStepAt, if_pos h1, if_pos h2,
              Option.isNone_iff_eq_none]
            rw [if_neg (by rw [Option.isSome_iff_ne_none] at hr; simpa using hr)]
          rw [hFr]
          exact ih (some x)
      · by_cases h3 : (h a.1).isNone
        · have hF : ∀ x, mergeStepAt h k x a = some [a.2] := fun x => by
            simp [mergeStepAt, if_pos h1, if_neg h2, h3]
          rw [hF, hF]
        · have hF : ∀ x, mergeStepAt h k x a = x := fun x => by
            simp [mergeStepAt, if_pos h1, if_neg h2, h3]
          rw [hF, hF]
          exact ih acc
    · have hF : ∀ x, mergeStepAt h k x a = x := fun x => by
        simp [mergeStepAt, if_neg h1]
      rw [hF, hF]
      exact ih acc

theorem setMissingHeaders_idem (hs : List (String × String)) (h : Header) :
    setMissingHeaders hs (setMissingHeaders hs h) = setMissingHeaders hs h := by
  funext k
  by_cases hk : canonicalMIMEHeaderKey k = k
  · rw [setMissingHeaders_at_canon hk hs (setMissingHeaders hs h)]
    have hext : ∀ acc, ∀ p ∈ hs,
        mergeStepAt (setMissingHeaders hs h) k acc p = mergeStepAt h k acc p := by
      intro acc p hp
      by_cases h1 : canonicalMIMEHeaderKey p.1 = k
      · by_cases h2 : p.1 = k
        · simp only [mergeStepAt, if_pos h1, if_pos h2]
        · have hpnc : canonicalMIMEHeaderKey p.1 ≠ p.1 := fun he => h2 (by rw [← he, h1])
          simp only [mergeStepAt, if_pos h1, if_neg h2,
            setMissingHeaders_nonCanon hpnc hs h]
      · simp only [mergeStepAt, if_neg h1]
    rw [List.foldl_ext _ _ _ hext]
    rw [setMissingHeaders_at_canon hk hs h]
    exact foldl_mergeStepAt_idem h k hs (h k)
  · rw [setMissingHeaders_nonCanon hk]



/-! ## Claims -/

/-- C1 counterexample: with the configured header `Accept` and a request
whose header map holds only the lowercase key `accept`, the claim says
`Accept` must not be set; in fact the merge step does set `Accept`. -/
theorem c1_counterexample :
    (singleHeader "accept" ["foo"]) "Accept" = none ∧
    (roundTripHeaders { AddMissingHeaders := true, Headers := [("Accept", "x")] }
        (singleHeader "accept" ["foo"])) "Accept" = some ["x"] := by
  constructor
  · decide
  · decide

/-- C1 (amended): the presence check of the merge loop is an exact,
case-sensitive map-key lookup.  If the exact configured name is absent
from the request headers, the configured header is set (under the
canonical MIME form of its name) no matter which case-variant entries the
request holds; and every non-canonical request key (such as a lowercase
variant) is left untouched. -/
theorem c1_presence_check_is_case_sensitive {o : Options} {h : Header} {p : String × String}
    (htrue : o.AddMissingHeaders = true) (hmem : p ∈ o.Headers) (habs : h p.1 = none) :
    ((roundTripHeaders o h) (canonicalMIMEHeaderKey p.1)).isSome ∧
    (∀ m, canonicalMIMEHeaderKey m ≠ m → (roundTripHeaders o h) m = h m) := by
  unfold roundTripHeaders
  rw [htrue, if_pos rfl]
  constructor
  · rcases setMissingHeaders_mem hmem with hl | hr
    · exact hl
    · rw [habs] at hr
      cases hr
  · intro m hm
    exact setMissingHeaders_nonCanon hm _ _

theorem c1_witness :
    ((roundTripHeaders { AddMissingHeaders := true, Headers := [("Accept", "x")] }
        (singleHeader "accept" ["foo"])) (canonicalMIMEHeaderKey "Accept")).isSome ∧
    (∀ m, canonicalMIMEHeaderKey m ≠ m →
      (roundTripHeaders { AddMissingHeaders := true, Headers := [("Accept", "x")] }
        (singleHeader "accept" ["foo"])) m = (singleHeader "accept" ["foo"]) m) :=
  c1_presence_check_is_case_sensitive (p := ("Accept", "x")) rfl (by decide) (by decide)


/-- Shared: wrapping a valid `*http.Transport` (with any non-panicking
options slice) replaces its whole `TLSClientConfig` pointer with a fresh
configuration and leaves the other transport fields unchanged. -/
theorem addCloudFlareByPass_transport {ρ ε : Type} (t : Transport)
    (opts : Option (List Options)) (hopts : opts ≠ some []) :
    ∃ d, AddCloudFlareByPass (ρ := ρ) (ε := ε) (some (.transport (some t))) opts =
      some (some (.transport (some
        { TLSClientConfig := some getCloudFlareTLSConfiguration, rest := t.rest })), d) := by
  unfold AddCloudFlareByPass
  match opts with
  | none => exact ⟨_, rfl⟩
  | some [] => exact absurd rfl hopts
  | some (o :: rest) => exact ⟨_, rfl⟩

/-- C2 counterexample: a transport whose TLS configuration has a
non-default value (`rest = 7`, standing for any other `tls.Config` field
such as `InsecureSkipVerify` or `RootCAs`) loses that value at wrap time:
the claim says only the curve list changes, but the whole configuration is
replaced, so afterwards `rest = 0`. -/
theorem c2_counterexample :
    AddCloudFlareByPass (ρ := Nat) (ε := Nat)
        (some (.transport (some
          { TLSClientConfig := some { CurvePreferences := [], rest := 7 }, rest := 3 })))
        none =
      some (some (.transport (some
          { TLSClientConfig := some getCloudFlareTLSConfiguration, rest := 3 })),
        { inner := some (.transport (some
            { TLSClientConfig := some getCloudFlareTLSConfiguration, rest := 3 })),
          options := GetDefaultOptions }) ∧
    getCloudFlareTLSConfiguration.rest ≠ 7 := ⟨rfl, by decide⟩

/-- C2 (amended): `AddCloudFlareByPass` does not edit the curve-preference
field in place; it replaces the transport entire TLS configuration
pointer with a freshly built configuration whose curve list is the fixed
sequence and whose every other field has its zero value.  Settings
previously stored in the old TLS configuration are discarded; the other
(non-TLS) fields of the transport are unchanged. -/
theorem c2_tls_config_replaced_wholesale {ρ ε : Type} (t : Transport)
    (opts : Option (List Options)) (hopts : opts ≠ some []) :
    ∃ d, AddCloudFlareByPass (ρ := ρ) (ε := ε) (some (.transport (some t))) opts =
      some (some (.transport (some
        { TLSClientConfig := some getCloudFlareTLSConfiguration, rest := t.rest })), d) :=
  addCloudFlareByPass_transport t opts hopts

theorem c2_witness :
    ∃ d, AddCloudFlareByPass (ρ := Nat) (ε := Nat)
        (some (.transport (some
          { TLSClientConfig := some { CurvePreferences := [], rest := 7 }, rest := 3 })))
        none =
      some (some (.transport (some
        { TLSClientConfig := some getCloudFlareTLSConfiguration, rest := 3 })), d) :=
  c2_tls_config_replaced_wholesale
    { TLSClientConfig := some { CurvePreferences := [], rest := 7 }, rest := 3 }
    none (by decide)


/-- C3 counterexample: with the non-canonical configured name `accept`
and a request already carrying `Accept: foo`, the raw-key presence check
misses, and `Header.Set("accept", "bar")` canonicalises the key and
overwrites the existing `Accept` entry — the claim says existing entries
are never altered. -/
theorem c3_counterexample :
    (singleHeader "Accept" ["foo"]) "Accept" = some ["foo"] ∧
    (roundTripHeaders { AddMissingHeaders := true, Headers := [("accept", "bar")] }
        (singleHeader "Accept" ["foo"])) "Accept" = some ["bar"] := by
  constructor
  · decide
  · decide

/-- C3 (amended): when every configured header name is already in
canonical MIME form (as all three default names are), the merge step with
`addMissingHeaders = true` makes every configured name present on the
request and leaves the value of every header name that was already set
unchanged.  (For a configured name that is not canonical, the entry at
the canonical form of that name can be overwritten, as the
counterexample shows.) -/
theorem c3_merge_adds_only_for_canonical_names {o : Options} {h : Header}
    (htrue : o.AddMissingHeaders = true)
    (hcanon : ∀ p ∈ o.Headers, canonicalMIMEHeaderKey p.1 = p.1) :
    (∀ p ∈ o.Headers, ((roundTripHeaders o h) p.1).isSome) ∧
    (∀ k, (h k).isSome → (roundTripHeaders o h) k = h k) := by
  unfold roundTripHeaders
  rw [htrue, if_pos rfl]
  constructor
  · intro p hp
    rcases setMissingHeaders_mem hp with hl | hr
    · rw [hcanon p hp] at hl
      exact hl
    · exact setMissingHeaders_grow hr
  · intro k hk
    exact setMissingHeaders_preserves hcanon hk

theorem c3_witness :
    (∀ p ∈ GetDefaultOptions.Headers,
      ((roundTripHeaders GetDefaultOptions (singleHeader "User-Agent" ["custom"])) p.1).isSome) ∧
    (∀ k, ((singleHeader "User-Agent" ["custom"]) k).isSome →
      (roundTripHeaders GetDefaultOptions (singleHeader "User-Agent" ["custom"])) k
        = (singleHeader "User-Agent" ["custom"]) k) :=
  c3_merge_adds_only_for_canonical_names rfl (by decide)

/-- C4: with `addMissingHeaders = false` the merge step is the identity on
the request headers, and `RoundTrip` delegates the request unchanged —
to the inner round tripper when present, otherwise to the fresh fallback
transport. -/
theorem c4_no_header_changes_when_disabled {ρ ε : Type} {o : Options}
    (hfalse : o.AddMissingHeaders = false) :
    (∀ h, roundTripHeaders o h = h) ∧
    (∀ (tb : Option Transport → Request → Except ε ρ) (r : Request),
      RoundTrip tb { inner := none, options := o } r = tb (some fallbackTransport) r ∧
      ∀ i, RoundTrip tb { inner := some i, options := o } r = applyRoundTripper tb i r) := by
  have h1 : ∀ h, roundTripHeaders o h = h := by
    intro h
    unfold roundTripHeaders
    rw [hfalse]
    rfl
  refine ⟨h1, fun tb r => ⟨?_, fun i => ?_⟩⟩
  · show tb (some fallbackTransport) ({ r with header := roundTripHeaders o r.header })
      = tb (some fallbackTransport) r
    rw [h1]
  · show applyRoundTripper tb i ({ r with header := roundTripHeaders o r.header })
      = applyRoundTripper tb i r
    rw [h1]

theorem c4_witness :
    (∀ h, roundTripHeaders ⟨false, GetDefaultOptions.Headers⟩ h = h) ∧
    (∀ (tb : Option Transport → Request → Except Nat Nat) (r : Request),
      RoundTrip tb ⟨none, ⟨false, GetDefaultOptions.Headers⟩⟩ r
        = tb (some fallbackTransport) r ∧
      ∀ i, RoundTrip tb ⟨some i, ⟨false, GetDefaultOptions.Headers⟩⟩ r
        = applyRoundTripper tb i r) :=
  c4_no_header_changes_when_disabled rfl


/-- C5 counterexample: calling the wrap function with a nil inner
round tripper and an explicitly spread empty (non-nil) options slice
panics — `options != nil` holds but `options[0]` is out of range — so the
call does not complete (`none` models the panic). -/
theorem c5_counterexample :
    AddCloudFlareByPass (ρ := Nat) (ε := Nat) none (some []) = none := rfl

/-- C5 (amended): `AddCloudFlareByPass` completes and returns a decorator
for every inner round tripper and options slice except in exactly two
panicking situations: a non-nil empty options slice (index out of range at
`options[0]`) and an inner holding a typed-nil `*http.Transport` (nil
dereference when assigning `TLSClientConfig`). -/
theorem c5_wrap_success_characterization {ρ ε : Type}
    (inner : Option (RoundTripperI ρ ε)) (opts : Option (List Options)) :
    (AddCloudFlareByPass inner opts).isSome
      ↔ (opts ≠ some [] ∧ inner ≠ some (.transport none)) := by
  unfold AddCloudFlareByPass
  match inner with
  | none =>
    match opts with
    | none => simp
    | some [] => simp
    | some (o :: rest) => simp
  | some (.transport none) => simp
  | some (.transport (some t)) =>
    match opts with
    | none => simp
    | some [] => simp
    | some (o :: rest) => simp
  | some (.custom f) =>
    match opts with
    | none => simp
    | some [] => simp
    | some (o :: rest) => simp

/-- C6: the TLS configuration the component installs — assigned to a
wrapped `*http.Transport` at wrap time, and carried by the fresh fallback
transport that the nil-inner path of `RoundTrip` delegates to — has the
curve-preference list exactly `[P-256, P-384, P-521, X25519]`. -/
theorem c6_curve_preferences_exact {ρ ε : Type} (t : Transport)
    (opts : Option (List Options)) (hopts : opts ≠ some []) :
    getCloudFlareTLSConfiguration.CurvePreferences
      = [CurveP256, CurveP384, CurveP521, X25519] ∧
    (∃ d, AddCloudFlareByPass (ρ := ρ) (ε := ε) (some (.transport (some t))) opts =
      some (some (.transport (some
        { TLSClientConfig := some getCloudFlareTLSConfiguration, rest := t.rest })), d)) ∧
    fallbackTransport.TLSClientConfig = some getCloudFlareTLSConfiguration ∧
    (∀ (tb : Option Transport → Request → Except ε ρ) (o : Options) (r : Request),
      RoundTrip tb ⟨none, o⟩ r
        = tb (some fallbackTransport) ⟨roundTripHeaders o r.header, r.rest⟩) :=
  ⟨rfl, addCloudFlareByPass_transport t opts hopts, rfl, fun _ _ _ => rfl⟩

theorem c6_witness :
    getCloudFlareTLSConfiguration.CurvePreferences
      = [CurveP256, CurveP384, CurveP521, X25519] ∧
    (∃ d, AddCloudFlareByPass (ρ := Nat) (ε := Nat)
        (some (.transport (some ⟨none, 0⟩))) none =
      some (some (.transport (some
        { TLSClientConfig := some getCloudFlareTLSConfiguration, rest := 0 })), d)) ∧
    fallbackTransport.TLSClientConfig = some getCloudFlareTLSConfiguration ∧
    (∀ (tb : Option Transport → Request → Except Nat Nat) (o : Options) (r : Request),
      RoundTrip tb ⟨none, o⟩ r
        = tb (some fallbackTransport) ⟨roundTripHeaders o r.header, r.rest⟩) :=
  c6_curve_preferences_exact ⟨none, 0⟩ none (by decide)

/-- C7: `GetDefaultOptions` returns the fixed Options value:
`AddMissingHeaders = true` and exactly the three configured headers
`Accept`, `Accept-Language` and `User-Agent` with their literal values.
(Being a pure function of no arguments, successive calls are equal; and
the Go function builds a fresh map literal on every call, so the returned
instances share no state.) -/
theorem c7_default_options_value :
    GetDefaultOptions.AddMissingHeaders = true ∧
    GetDefaultOptions.Headers.length = 3 ∧
    GetDefaultOptions.Headers.map Prod.fst = ["Accept", "Accept-Language", "User-Agent"] ∧
    GetDefaultOptions.Headers.lookup "Accept"
      = some "text/html,application/xhtml+xml,application/xml;q=0.9,image/webp,image/apng,*/*;q=0.8" ∧
    GetDefaultOptions.Headers.lookup "Accept-Language" = some "en-US,en;q=0.5" ∧
    GetDefaultOptions.Headers.lookup "User-Agent"
      = some "Mozilla/5.0 (Windows NT 10.0; Win64; x64) AppleWebKit/537.36 (KHTML, like Gecko) Chrome/127.0.0.0 Safari/537.36 Edg/127.0.0.0" :=
  ⟨rfl, rfl, rfl, rfl, rfl, rfl⟩

/-- C8: with a non-nil inner round tripper, `RoundTrip` returns exactly
the inner result on the header-augmented request — the same response or
error value, so it succeeds exactly when the inner call does. -/
theorem c8_delegation_passthrough {ρ ε : Type}
    (tb : Option Transport → Request → Except ε ρ) (i : RoundTripperI ρ ε)
    (o : Options) (r : Request) :
    RoundTrip tb ⟨some i, o⟩ r
      = applyRoundTripper tb i ⟨roundTripHeaders o r.header, r.rest⟩ ∧
    resultOk (RoundTrip tb ⟨some i, o⟩ r)
      = resultOk (applyRoundTripper tb i ⟨roundTripHeaders o r.header, r.rest⟩) :=
  ⟨rfl, rfl⟩

/-- C9: the header-merge step is idempotent, so a decorator wrapping
another decorator with the same Options produces exactly the round trip
of the single decorator. -/
theorem c9_wrapping_idempotent_on_headers {ρ ε : Type}
    (tb : Option Transport → Request → Except ε ρ)
    (i : Option (RoundTripperI ρ ε)) (o : Options) (r : Request) (h : Header) :
    roundTripHeaders o (roundTripHeaders o h) = roundTripHeaders o h ∧
    RoundTrip tb ⟨some (.custom (RoundTrip tb ⟨i, o⟩)), o⟩ r = RoundTrip tb ⟨i, o⟩ r := by
  have hidem : ∀ hh, roundTripHeaders o (roundTripHeaders o hh) = roundTripHeaders o hh := by
    intro hh
    unfold roundTripHeaders
    split
    · exact setMissingHeaders_idem o.Headers hh
    · rfl
  refine ⟨hidem h, ?_⟩
  show RoundTrip tb ⟨i, o⟩ ⟨roundTripHeaders o r.header, r.rest⟩ = RoundTrip tb ⟨i, o⟩ r
  cases i with
  | none =>
    show tb (some fallbackTransport) ⟨roundTripHeaders o (roundTripHeaders o r.header), r.rest⟩
      = tb (some fallbackTransport) ⟨roundTripHeaders o r.header, r.rest⟩
    rw [hidem]
  | some j =>
    show applyRoundTripper tb j ⟨roundTripHeaders o (roundTripHeaders o r.header), r.rest⟩
      = applyRoundTripper tb j ⟨roundTripHeaders o r.header, r.rest⟩
    rw [hidem]

/-- C10: every Options argument after the first is ignored: the wrap call
returns the same updated-inner/decorator pair whatever the tail of the
options slice is, hence later round trips are unaffected. -/
theorem c10_only_first_options_used {ρ ε : Type}
    (inner : Option (RoundTripperI ρ ε)) (o : Options) (rest : List Options) :
    AddCloudFlareByPass inner (some (o :: rest)) = AddCloudFlareByPass inner (some [o]) := by
  unfold AddCloudFlareByPass
  match inner with
  | none => rfl
  | some (.transport none) => rfl
  | some (.transport (some t)) => rfl
  | some (.custom f) => rfl


end Cloudflarebp
